import Mathlib

/-!
# Verification of the playground share-link subsystem

Shallow embedding of the share-link coordinator of the CS4215 playground
frontend, covering:

* `src/commons/sagas/PlaygroundSaga.ts` — the `SHORTEN_URL` worker (race
  against a 10 s timeout, failure classification, notifications), the
  `GENERATE_LZ_STRING` worker `updateQueryString`, and `shortenURLRequest`;
* the Playground component's `handleHash` (program decompression and
  execution-time clamping).

JavaScript strings are modelled as `List Char`.  JavaScript `undefined` and
`null` are modelled with `Option` (collapsed where the code cannot tell them
apart).  The lz-string compressor is an external library; it is abstracted as
a function pair subject to its documented left-inverse (lossless) contract.
The query-string library's stringify/parse are modelled concretely at the
character level (percent-encoding restricted to ASCII, which covers every
string this subsystem produces).
-/

/-! ## Common string constants (from the source) -/

/-- `'ERROR'` — the sentinel written to the short-URL slot on failure
(`PlaygroundSaga.ts`, `const errorMsg = 'ERROR'`). -/
def errorMsg : List Char := "ERROR".data

/-- The generic warning shown on transport failure or timeout
(`PlaygroundSaga.ts` line 42). -/
def somethingWentWrongMsg : List Char :=
  "Something went wrong trying to create the link.".data

/-- The `'success'` status string compared against `resp.status`. -/
def successStr : List Char := "success".data

/-- `defaultEditorValue = '1+1'` (ApplicationTypes). -/
def defaultEditorValue : List Char := "1+1".data

/-- The `delay(10000)` bound raced against the shorten request. -/
def shortenTimeoutMs : Nat := 10000

/-! ## Response model

The shortening endpoint answers with JSON.  The saga reads the fields
`status`, `message`, `shorturl` and `url.keyword`; each may be absent
(`Option`).  Non-object JSON primitives are not modelled: the claims under
verification all concern object (or `null`) responses. -/

/-- The `url` sub-object of the endpoint response; `keyword` may be absent. -/
structure UrlObj where
  keyword : Option (List Char)
deriving DecidableEq

/-- The JSON object returned by the shortening endpoint, restricted to the
fields the saga reads. -/
structure RespObj where
  status : Option (List Char)
  message : Option (List Char)
  shorturl : Option (List Char)
  url : Option UrlObj
deriving DecidableEq

/-- JavaScript truthiness of an optional string field (`!resp.shorturl`):
absent and `''` are falsy. -/
def truthyStr : Option (List Char) → Bool
  | some s => !s.isEmpty
  | none => false

/-- JavaScript string coercion of a possibly-`undefined` value appearing in
string concatenation (`base + resp.url.keyword`): `undefined` prints as
`"undefined"`. -/
def jsStringOfOpt (o : Option (List Char)) : List Char :=
  o.getD "undefined".data

/-- A notification raised through `showWarningMessage` / `showSuccessMessage`.
The carried message is the JavaScript value passed (possibly `undefined`). -/
inductive Notification where
  | warning (message : Option (List Char))
  | success (message : Option (List Char))
deriving DecidableEq

/-- Observable effect of one run of the `SHORTEN_URL` worker:
the value written to the short-URL slot via `updateShortURL` (if reached),
the notification shown (if any), and whether the worker body threw a
`TypeError` (reading `.keyword` of an `undefined` `resp.url`) past its own
`try` block. -/
structure SagaOutput where
  shortURL : Option (List Char)
  notification : Option Notification
  crashed : Bool
deriving DecidableEq

/-! ## The race and the request -/

/-- What the `race` between `call(shortenURLRequest, …)` and `delay(10000)`
delivered to the worker:

* `threw` — the request promise rejected (`fetch` failed or `resp.json()`
  failed); the worker's `try` catches it and leaves `resp`/`timeout`
  undefined;
* `timedOut` — the delay won: `hasTimedOut` is set, `result` undefined;
* `completed r` — the call won with value `r` (`none` = the request
  returned `null` for a non-OK HTTP status). -/
inductive RaceOutcome where
  | threw
  | timedOut
  | completed (resp : Option RespObj)
deriving DecidableEq

/-- Behaviour of the single `fetch` in `shortenURLRequest`:
the network may fail outright, or deliver a response with an `ok` flag and a
body that either parses to JSON or fails to parse (`none`). -/
inductive FetchResult where
  | netError
  | httpResp (ok : Bool) (body : Option RespObj)
deriving DecidableEq

/-- `shortenURLRequest` (PlaygroundSaga.ts lines 88–116), as a function of the
fetch behaviour.  Result `none` = the promise rejected (fetch error or
unparsable body); `some none` = returned `null` (non-OK status);
`some (some r)` = the parsed JSON. -/
def shortenURLRequest : FetchResult → Option (Option RespObj)
  | .netError => none
  | .httpResp ok body =>
    if !ok then some none
    else
      match body with
      | none => none
      | some r => some (some r)

/-- The race outcome produced by the network call alone (when it wins). -/
def netOutcome (f : FetchResult) : RaceOutcome :=
  match shortenURLRequest f with
  | none => .threw
  | some r => .completed r

/-- `race({result: call(shortenURLRequest …), hasTimedOut: delay(10000)})`:
redux-saga's `race` resolves with exactly one winner and cancels the loser.
`dur` is the completion time of the network call in milliseconds; the call
wins iff it completes strictly before the delay fires. -/
def raceShorten (dur : Nat) (f : FetchResult) : RaceOutcome :=
  if dur < shortenTimeoutMs then netOutcome f else .timedOut

/-! ## The `SHORTEN_URL` worker -/

/-- The body of the `SHORTEN_URL` worker (PlaygroundSaga.ts lines 22–54)
after the race resolved, as a function of the race outcome.  `base` is
`Constants.urlShortenerBase` (configuration, abstracted).

Mirrors the source line by line:
* `if (!resp || timeout)` — sentinel + generic warning;
* `if (resp.status !== 'success' && !resp.shorturl)` — sentinel + warning
  with `resp.message`;
* `if (resp.status !== 'success')` — success-styled notification with
  `resp.message`;
* `updateShortURL(Constants.urlShortenerBase + resp.url.keyword)` — throws a
  `TypeError` when `resp.url` is `undefined` (modelled by `crashed := true`;
  the notification already shown, if any, is kept). -/
def runShorten (base : List Char) (o : RaceOutcome) : SagaOutput :=
  match o with
  | .threw => ⟨some errorMsg, some (.warning (some somethingWentWrongMsg)), false⟩
  | .timedOut => ⟨some errorMsg, some (.warning (some somethingWentWrongMsg)), false⟩
  | .completed none => ⟨some errorMsg, some (.warning (some somethingWentWrongMsg)), false⟩
  | .completed (some r) =>
    if r.status ≠ some successStr ∧ truthyStr r.shorturl = false then
      ⟨some errorMsg, some (.warning r.message), false⟩
    else
      let notif : Option Notification :=
        if r.status ≠ some successStr then some (.success r.message) else none
      match r.url with
      | none => ⟨none, notif, true⟩
      | some u => ⟨some (base ++ jsStringOfOpt u.keyword), notif, false⟩

/-- The standard failure output: `ERROR` sentinel plus the generic warning. -/
def genericFailureOutput : SagaOutput :=
  ⟨some errorMsg, some (.warning (some somethingWentWrongMsg)), false⟩

/-- Race outcomes the saga classifies as failure: exception, timeout, `null`
response, or an application-level failure payload (status not `'success'`
and no truthy `shorturl`). -/
def failureOutcome (o : RaceOutcome) : Prop :=
  o = .threw ∨ o = .timedOut ∨ o = .completed none ∨
    (∃ r, o = .completed (some r) ∧
      r.status ≠ some successStr ∧ truthyStr r.shorturl = false)

/-! ## Saga theorems -/

/-- **C2.** For every shorten attempt in which the network request fails
(connection error, non-OK HTTP status, or unparsable response body) or the
10-second timeout elapses before the request completes, the short-URL value
is set to `'ERROR'` and a warning with the exact text
"Something went wrong trying to create the link." is shown. -/
theorem c2_transport_failures (base : List Char) (dur : Nat) (f : FetchResult)
    (h : f = .netError ∨ (∃ b, f = .httpResp false b) ∨
         f = .httpResp true none ∨ shortenTimeoutMs ≤ dur) :
    runShorten base (raceShorten dur f) = genericFailureOutput ∧
      shortenTimeoutMs = 10000 := by
  refine ⟨?_, rfl⟩
  by_cases hd : dur < shortenTimeoutMs
  · rcases h with h | ⟨b, h⟩ | h | h
    · subst h; simp [raceShorten, hd, netOutcome, shortenURLRequest, runShorten,
        genericFailureOutput]
    · subst h; simp [raceShorten, hd, netOutcome, shortenURLRequest, runShorten,
        genericFailureOutput]
    · subst h; simp [raceShorten, hd, netOutcome, shortenURLRequest, runShorten,
        genericFailureOutput]
    · omega
  · simp [raceShorten, hd, runShorten, genericFailureOutput]

/-- Witness for C2 at a concrete timed-out attempt. -/
theorem c2_transport_failures_witness :
    runShorten [] (raceShorten 10000 .netError) = genericFailureOutput ∧
      shortenTimeoutMs = 10000 :=
  c2_transport_failures [] 10000 .netError (Or.inr (Or.inr (Or.inr (by decide))))

/-- **C4.** When the network call and the 10-second timeout both eventually
complete, the result reflects whichever finished first: if the timeout wins
(the call's duration reaches the bound) the outcome is the timeout outcome —
yielding `Failure("ERROR")` with the standard warning — independent of the
network call's eventual result (`f` vs `f'`); if the call wins, the outcome
is determined by the network result alone and the timeout never overwrites
it. -/
theorem c4_race_first_wins (base : List Char) (dur : Nat) (f f' : FetchResult) :
    (shortenTimeoutMs ≤ dur →
        raceShorten dur f = .timedOut ∧
        raceShorten dur f = raceShorten dur f' ∧
        runShorten base (raceShorten dur f) = genericFailureOutput) ∧
    (dur < shortenTimeoutMs → raceShorten dur f = netOutcome f) := by
  constructor
  · intro hle
    have hd : ¬ dur < shortenTimeoutMs := by omega
    refine ⟨by simp [raceShorten, hd], by simp [raceShorten, hd], ?_⟩
    simp [raceShorten, hd, runShorten, genericFailureOutput]
  · intro hlt
    simp [raceShorten, hlt]

/-- Witness for C4 at a concrete late completion. -/
theorem c4_race_first_wins_witness :
    (shortenTimeoutMs ≤ 12000 →
        raceShorten 12000 .netError = .timedOut ∧
        raceShorten 12000 .netError = raceShorten 12000 (.httpResp true none) ∧
        runShorten [] (raceShorten 12000 .netError) = genericFailureOutput) ∧
    (12000 < shortenTimeoutMs → raceShorten 12000 .netError = netOutcome .netError) :=
  c4_race_first_wins [] 12000 .netError (.httpResp true none)

/-- **C6.** For every endpoint response without an HTTP failure whose payload
has no `shorturl` field and a status other than `'success'`, the worker sets
the short-URL value to `'ERROR'` and shows a warning whose text is taken
verbatim from the response's `message` field. -/
theorem c6_application_failure (base : List Char) (r : RespObj)
    (hs : r.status ≠ some successStr) (hu : r.shorturl = none) :
    runShorten base (.completed (some r)) =
      ⟨some errorMsg, some (.warning r.message), false⟩ := by
  simp [runShorten, hs, hu, truthyStr]

/-- Witness for C6: `{status: "fail", message: "bad keyword"}` with no
`shorturl`. -/
theorem c6_application_failure_witness :
    runShorten [] (.completed (some ⟨some "fail".data, some "bad keyword".data,
        none, none⟩)) =
      ⟨some errorMsg, some (.warning (some "bad keyword".data)), false⟩ :=
  c6_application_failure [] ⟨some "fail".data, some "bad keyword".data, none, none⟩
    (by decide) rfl

/-- **C8.** For every endpoint response with HTTP-level success and a payload
indicating a successful shorten action with a delivered keyword, the worker
sets the short-URL value to the shortener base concatenated with the
delivered keyword and shows no notification. -/
theorem c8_success_path (base : List Char) (r : RespObj) (u : UrlObj)
    (kw : List Char) (hs : r.status = some successStr)
    (hu : r.url = some u) (hk : u.keyword = some kw) :
    runShorten base (.completed (some r)) = ⟨some (base ++ kw), none, false⟩ := by
  simp [runShorten, hs, hu, hk, jsStringOfOpt]

/-- Witness for C8: `{status: "success", url: {keyword: "abc"}}`. -/
theorem c8_success_path_witness :
    runShorten "b/".data (.completed (some ⟨some "success".data, none, none,
        some ⟨some "abc".data⟩⟩)) =
      ⟨some ("b/".data ++ "abc".data), none, false⟩ :=
  c8_success_path "b/".data ⟨some "success".data, none, none, some ⟨some "abc".data⟩⟩
    ⟨some "abc".data⟩ "abc".data rfl rfl rfl

/-- **C3 (counterexample).** The claim "every failure is caught at the
shortening-client boundary and converted to a notification plus a sentinel
state value; no exception escapes the handler" fails at the concrete response
`{status: "success"}` with no `url` field: the worker reaches
`resp.url.keyword`, throws a `TypeError` out of its body, writes no sentinel
and shows no notification. -/
theorem c3_counterexample :
    runShorten [] (.completed (some ⟨some successStr, none, none, none⟩)) =
      ⟨none, none, true⟩ := by
  decide

/-- **C3 (amended).** For every race outcome whose response carries a `url`
object whenever the success path is reached (status `'success'` or truthy
`shorturl`), the worker completes without exception and always writes the
short-URL slot; every outcome it classifies as failure is converted to the
`'ERROR'` sentinel plus a warning notification.  (Without the `url`-presence
proviso the worker throws, as `c3_counterexample` shows.) -/
theorem c3_no_escape_amended (base : List Char) (o : RaceOutcome)
    (hurl : ∀ r, o = .completed (some r) →
      (r.status = some successStr ∨ truthyStr r.shorturl = true) → r.url.isSome) :
    (runShorten base o).crashed = false ∧ (runShorten base o).shortURL.isSome ∧
      (failureOutcome o → (runShorten base o).shortURL = some errorMsg ∧
        ∃ m, (runShorten base o).notification = some (.warning m)) := by
  match o with
  | .threw =>
      exact ⟨rfl, rfl, fun _ => ⟨rfl, some somethingWentWrongMsg, rfl⟩⟩
  | .timedOut =>
      exact ⟨rfl, rfl, fun _ => ⟨rfl, some somethingWentWrongMsg, rfl⟩⟩
  | .completed none =>
      exact ⟨rfl, rfl, fun _ => ⟨rfl, some somethingWentWrongMsg, rfl⟩⟩
  | .completed (some r) =>
      by_cases hfail : r.status ≠ some successStr ∧ truthyStr r.shorturl = false
      · have hout : runShorten base (.completed (some r)) =
            ⟨some errorMsg, some (.warning r.message), false⟩ := by
          simp only [runShorten, if_pos hfail]
        rw [hout]
        exact ⟨rfl, rfl, fun _ => ⟨rfl, r.message, rfl⟩⟩
      · have hsucc : r.status = some successStr ∨ truthyStr r.shorturl = true := by
          by_cases hs : r.status = some successStr
          · exact Or.inl hs
          · right
            rcases h' : truthyStr r.shorturl with _ | _
            · exact absurd ⟨hs, h'⟩ hfail
            · rfl
        obtain ⟨u, hu⟩ := Option.isSome_iff_exists.mp (hurl r rfl hsucc)
        have hnf : ¬ failureOutcome (.completed (some r)) := by
          intro hf
          rcases hf with h | h | h | ⟨r', hr', hs', ht'⟩
          · exact RaceOutcome.noConfusion h
          · exact RaceOutcome.noConfusion h
          · simp at h
          · have : r' = r := by
              have := hr'
              simp only [RaceOutcome.completed.injEq, Option.some.injEq] at this
              exact this.symm
            subst this
            exact hfail ⟨hs', ht'⟩
        have hout : runShorten base (.completed (some r)) =
            ⟨some (base ++ jsStringOfOpt u.keyword),
              if r.status ≠ some successStr then
                some (.success r.message) else none, false⟩ := by
          simp only [runShorten, if_neg hfail, hu]
        rw [hout]
        exact ⟨rfl, rfl, fun hf => absurd hf hnf⟩

/-- Witness for C3 (amended) at a concrete timed-out outcome. -/
theorem c3_no_escape_amended_witness :
    (runShorten [] .timedOut).crashed = false ∧
      (runShorten [] .timedOut).shortURL.isSome ∧
      (failureOutcome .timedOut → (runShorten [] .timedOut).shortURL = some errorMsg ∧
        ∃ m, (runShorten [] .timedOut).notification = some (.warning m)) :=
  c3_no_escape_amended [] .timedOut (fun _ hr => RaceOutcome.noConfusion hr)

/-- **C5 (counterexample).** The claim "for every endpoint response with a
status other than `'success'` but with a `shorturl` field present, the
shorten operation still produces a Success result and a success-styled
notification" fails at `{status: "fail", message: "m", shorturl: "x"}` with
no `url` field: the success-styled notification is shown, but the worker then
throws reading `resp.url.keyword` and never writes a short-URL value. -/
theorem c5_counterexample :
    runShorten [] (.completed (some ⟨some "fail".data, some "m".data,
        some "x".data, none⟩)) =
      ⟨none, some (.success (some "m".data)), true⟩ := by
  decide

/-- **C5 (amended).** For every endpoint response with a status other than
`'success'` but with a truthy `shorturl` field **and a `url` object carrying
a delivered keyword**, the shorten operation still produces a Success result
(base ++ keyword) and a success-styled notification carrying the endpoint's
message; when the `url` object is absent the worker instead throws
(`c5_counterexample`). -/
theorem c5_degraded_success_amended (base : List Char) (r : RespObj) (u : UrlObj)
    (kw : List Char) (hs : r.status ≠ some successStr)
    (ht : truthyStr r.shorturl = true) (hu : r.url = some u)
    (hk : u.keyword = some kw) :
    runShorten base (.completed (some r)) =
      ⟨some (base ++ kw), some (.success r.message), false⟩ := by
  simp [runShorten, hs, ht, hu, hk, jsStringOfOpt]

/-- Witness for C5 (amended): `{status: "fail", message: "m", shorturl: "x",
url: {keyword: "abc"}}`. -/
theorem c5_degraded_success_amended_witness :
    runShorten "b/".data (.completed (some ⟨some "fail".data, some "m".data,
        some "x".data, some ⟨some "abc".data⟩⟩)) =
      ⟨some ("b/".data ++ "abc".data), some (.success (some "m".data)), false⟩ :=
  c5_degraded_success_amended "b/".data
    ⟨some "fail".data, some "m".data, some "x".data, some ⟨some "abc".data⟩⟩
    ⟨some "abc".data⟩ "abc".data (by decide) rfl rfl rfl

/-! ## Query-string codec

`qs.stringify` / `qs.parse` (the `query-string` npm package) modelled at the
character level.  `stringify` percent-encodes keys and values with
strict RFC 3986 encoding (unreserved characters `A–Z a–z 0–9 - _ . ~` kept,
everything else escaped as `%XX` per UTF-8 byte, uppercase hex) and joins
`key=value` segments with `&`, sorting keys alphabetically.  `parse` strips
one leading `?`/`#`/`&`, splits on `&`, drops empty segments, splits each
segment at its first `=` (a segment with no `=` maps to a `null` value) and
percent-decodes both components (falling back to the raw component if
decoding fails). -/

/-- RFC 3986 unreserved characters, the ones `query-string`'s strict encoder
leaves unescaped. -/
def uriUnreserved (c : Char) : Bool :=
  c.isAlphanum || c == '-' || c == '_' || c == '.' || c == '~'

/-- Uppercase hexadecimal digit for `n < 16`. -/
def hexDigit (n : Nat) : Char :=
  if n < 10 then Char.ofNat (48 + n) else Char.ofNat (55 + n)

/-- UTF-8 encoding of one scalar value, as byte values. -/
def utf8Bytes (c : Char) : List Nat :=
  if c.toNat < 0x80 then [c.toNat]
  else if c.toNat < 0x800 then [0xC0 + c.toNat / 64, 0x80 + c.toNat % 64]
  else if c.toNat < 0x10000 then
    [0xE0 + c.toNat / 4096, 0x80 + c.toNat / 64 % 64, 0x80 + c.toNat % 64]
  else
    [0xF0 + c.toNat / 262144, 0x80 + c.toNat / 4096 % 64,
     0x80 + c.toNat / 64 % 64, 0x80 + c.toNat % 64]

/-- Strict percent-encoding of one character. -/
def encodeChar (c : Char) : List Char :=
  if uriUnreserved c then [c]
  else (utf8Bytes c).flatMap (fun b => ['%', hexDigit (b / 16), hexDigit (b % 16)])

/-- Strict percent-encoding of a string (`encodeURIComponent` plus the extra
escapes of strict mode). -/
def percentEncodeStr (s : List Char) : List Char :=
  s.flatMap encodeChar

/-- Value of one hexadecimal digit character. -/
def hexVal (c : Char) : Option Nat :=
  if '0' ≤ c ∧ c ≤ '9' then some (c.toNat - 48)
  else if 'A' ≤ c ∧ c ≤ 'F' then some (c.toNat - 55)
  else if 'a' ≤ c ∧ c ≤ 'f' then some (c.toNat - 87)
  else none

/-- Percent-decoding (`decodeURIComponent`): `%XX` escapes become the byte
`XX`, other characters pass through.  Multi-byte UTF-8 sequences (bytes
`≥ 0x80`) are not reconstructed — every string this subsystem feeds to the
decoder is ASCII, which the round-trip theorems make explicit — and a
malformed escape yields `none`. -/
def percentDecode : List Char → Option (List Char)
  | [] => some []
  | c :: rest =>
    if c = '%' then
      match rest with
      | h :: l :: rest' => do
        let hi ← hexVal h
        let lo ← hexVal l
        let b := hi * 16 + lo
        if b < 128 then do
          let tail ← percentDecode rest'
          pure (Char.ofNat b :: tail)
        else none
      | _ => none
    else (percentDecode rest).map (c :: ·)

/-- `Array.prototype.join('&')`. -/
def joinAmp : List (List Char) → List Char
  | [] => []
  | [s] => s
  | s :: rest => s ++ '&' :: joinAmp rest

/-- `String.prototype.split('&')`. -/
def splitOnAmp : List Char → List (List Char)
  | [] => [[]]
  | c :: rest =>
    if c = '&' then [] :: splitOnAmp rest
    else
      match splitOnAmp rest with
      | [] => [[c]]
      | s :: ss => (c :: s) :: ss

/-- Split a `key=value` segment at its first `=`; a segment with no `=` has a
`null` value. -/
def splitFirstEq : List Char → List Char × Option (List Char)
  | [] => ([], none)
  | c :: rest =>
    if c = '=' then ([], some rest)
    else
      let kv := splitFirstEq rest
      (c :: kv.1, kv.2)

/-- `query-string`'s removal of one leading `?`, `#` or `&`. -/
def dropLead : List Char → List Char
  | [] => []
  | c :: rest => if c = '?' ∨ c = '#' ∨ c = '&' then rest else c :: rest

/-- Best-effort percent-decoding of one component (`decode-uri-component`
falls back to the raw text when decoding fails). -/
def decodeComp (s : List Char) : List Char :=
  (percentDecode s).getD s

/-- Modelled from the spec: `parseQuery` (`commons/utils/QueryHelper`, not
under `src/`) — "decoding the produced string"; it applies the
`query-string` package's `parse` to the hash.  Duplicate keys (which the
encoder never produces) are looked up first-wins rather than collected into
arrays. -/
def parseQuery (hash : List Char) : List (List Char × Option (List Char)) :=
  ((splitOnAmp (dropLead hash)).filter (fun seg => !seg.isEmpty)).map fun seg =>
    let kv := splitFirstEq seg
    (decodeComp kv.1, kv.2.map decodeComp)

/-- `qs.stringify` restricted to string-valued pairs, keys pre-sorted (the
library sorts keys alphabetically by default). -/
def qsStringify (pairs : List (List Char × List Char)) : List Char :=
  joinAmp (pairs.map fun p => percentEncodeStr p.1 ++ '=' :: percentEncodeStr p.2)

/-! ## The query-string encoder (`updateQueryString`) -/

/-- The fields of `OverallState` that `updateQueryString` reads at trigger
time: first editor tab text, language variant, external library, execution
time. -/
structure EditorSnapshot where
  text : List Char
  variant : List Char
  externalLibrary : List Char
  execTime : Nat
deriving DecidableEq

/-- `updateQueryString` (PlaygroundSaga.ts lines 57–82) as the value it
publishes via `changeQueryString`: the empty string for empty or
default-placeholder text, otherwise
`qs.stringify({prgrm: compress(code), variant, ext, exec})` (keys emitted in
the library's sorted order).  `compress` abstracts lz-string's
`compressToEncodedURIComponent`. -/
def updateQueryString (compress : List Char → List Char)
    (snap : EditorSnapshot) : List Char :=
  if snap.text = [] ∨ snap.text = defaultEditorValue then []
  else qsStringify
    [("exec".data, (Nat.repr snap.execTime).data),
     ("ext".data, snap.externalLibrary),
     ("prgrm".data, compress snap.text),
     ("variant".data, snap.variant)]

/-! ## `handleHash` (Playground component) -/

/-- The program-restoring part of `handleHash`:
`const programLz = qs.lz ?? qs.prgrm` (nullish coalescing: an absent or
`null` `lz` falls through to `prgrm`), then
`programLz && decompressFromEncodedURIComponent(programLz)`, and the editor
is updated only when the result is truthy.  `decompress` abstracts
lz-string's `decompressFromEncodedURIComponent` (which may return `null`).
Returns the text written to the editor, if any. -/
def handleHashProgram (decompress : List Char → Option (List Char))
    (hash : List Char) : Option (List Char) :=
  let q := parseQuery hash
  let programLz : Option (List Char) :=
    match q.lookup "lz".data with
    | some (some v) => some v
    | _ => (q.lookup "prgrm".data).bind id
  match programLz with
  | none => none
  | some l =>
    if l = [] then none
    else
      match decompress l with
      | none => none
      | some p => if p = [] then none else some p

/-! ## Round-trip lemmas for the codec -/

/-- Every Unicode scalar value is below `0x110000`. -/
theorem char_toNat_lt (c : Char) : c.toNat < 1114112 := by
  have hval : c.toNat = c.val.toNat := rfl
  rcases c.valid with h | ⟨_, h2⟩ <;> omega

/-- UTF-8 bytes are bytes. -/
theorem utf8Bytes_lt_256 (c : Char) : ∀ b ∈ utf8Bytes c, b < 256 := by
  have hv := char_toNat_lt c
  intro b hb
  unfold utf8Bytes at hb
  split_ifs at hb <;>
    simp only [List.mem_cons, List.mem_singleton, List.not_mem_nil, or_false] at hb <;>
    omega

/-- Characters of a percent-encoded string are unreserved, `%`, or hex
digits. -/
theorem pe_char_cases (s : List Char) (c' : Char) (h : c' ∈ percentEncodeStr s) :
    uriUnreserved c' = true ∨ c' = '%' ∨ ∃ n, n < 16 ∧ c' = hexDigit n := by
  unfold percentEncodeStr at h
  obtain ⟨c, _, hc⟩ := List.mem_flatMap.mp h
  unfold encodeChar at hc
  split_ifs at hc with hu
  · simp only [List.mem_singleton] at hc
    exact Or.inl (hc ▸ hu)
  · obtain ⟨b, hb, hmem⟩ := List.mem_flatMap.mp hc
    have hb256 := utf8Bytes_lt_256 c b hb
    simp only [List.mem_cons, List.mem_singleton, List.not_mem_nil, or_false] at hmem
    rcases hmem with h' | h' | h'
    · exact Or.inr (Or.inl h')
    · exact Or.inr (Or.inr ⟨b / 16, by omega, h'⟩)
    · exact Or.inr (Or.inr ⟨b % 16, by omega, h'⟩)

/-- Percent-encoded output never contains `&`, `=`, `?` or `#`. -/
theorem pe_avoids_meta (s : List Char) (c' : Char) (h : c' ∈ percentEncodeStr s) :
    c' ≠ '&' ∧ c' ≠ '=' ∧ c' ≠ '?' ∧ c' ≠ '#' := by
  rcases pe_char_cases s c' h with hu | h' | ⟨n, hn, he⟩
  · refine ⟨?_, ?_, ?_, ?_⟩ <;> rintro rfl <;> exact absurd hu (by decide)
  · subst h'
    exact ⟨by decide, by decide, by decide, by decide⟩
  · subst he
    have hd := (by decide : ∀ n, n < 16 → hexDigit n ≠ '&' ∧ hexDigit n ≠ '=' ∧
      hexDigit n ≠ '?' ∧ hexDigit n ≠ '#') n hn
    exact hd

/-- `&` never occurs in percent-encoded output. -/
theorem amp_not_mem_pe (s : List Char) : '&' ∉ percentEncodeStr s :=
  fun h => (pe_avoids_meta s '&' h).1 rfl

/-- `=` never occurs in percent-encoded output. -/
theorem eqsign_not_mem_pe (s : List Char) : '=' ∉ percentEncodeStr s :=
  fun h => (pe_avoids_meta s '=' h).2.1 rfl

/-- The first character of percent-encoded output is never one of the
prefixes `qs.parse` strips. -/
theorem pe_char_not_stripped (s : List Char) (c' : Char)
    (h : c' ∈ percentEncodeStr s) : ¬(c' = '?' ∨ c' = '#' ∨ c' = '&') := by
  obtain ⟨h1, _, h3, h4⟩ := pe_avoids_meta s c' h
  rintro (rfl | rfl | rfl)
  · exact h3 rfl
  · exact h4 rfl
  · exact h1 rfl

/-- Splitting a string without `&` yields the single segment. -/
theorem splitOnAmp_of_not_mem (s : List Char) (h : '&' ∉ s) :
    splitOnAmp s = [s] := by
  induction s with
  | nil => rfl
  | cons c rest ih =>
    have hc : c ≠ '&' := fun hh => h (hh ▸ List.mem_cons_self c rest)
    have hr : '&' ∉ rest := fun hh => h (List.mem_cons_of_mem c hh)
    simp [splitOnAmp, hc, ih hr]

/-- Splitting separates an `&`-free head segment. -/
theorem splitOnAmp_append (a t : List Char) (h : '&' ∉ a) :
    splitOnAmp (a ++ '&' :: t) = a :: splitOnAmp t := by
  induction a with
  | nil => simp [splitOnAmp]
  | cons c a' ih =>
    have hc : c ≠ '&' := fun hh => h (hh ▸ List.mem_cons_self c a')
    have ha : '&' ∉ a' := fun hh => h (List.mem_cons_of_mem c hh)
    simp [splitOnAmp, hc, ih ha]

/-- `splitOnAmp` inverts `joinAmp` on `&`-free segments. -/
theorem splitOnAmp_joinAmp (segs : List (List Char)) (hne : segs ≠ [])
    (h : ∀ s ∈ segs, '&' ∉ s) : splitOnAmp (joinAmp segs) = segs := by
  induction segs with
  | nil => exact absurd rfl hne
  | cons s rest ih =>
    cases rest with
    | nil => simpa [joinAmp] using splitOnAmp_of_not_mem s (h s (List.mem_cons_self s []))
    | cons s2 rest' =>
      have hs : '&' ∉ s := h s (List.mem_cons_self s (s2 :: rest'))
      have hstep : joinAmp (s :: s2 :: rest') = s ++ '&' :: joinAmp (s2 :: rest') := rfl
      rw [hstep, splitOnAmp_append s _ hs,
        ih (by simp) (fun x hx => h x (List.mem_cons_of_mem s hx))]

/-- Splitting at the first `=` of `k ++ '=' :: v` with `=`-free `k`. -/
theorem splitFirstEq_append (k v : List Char) (h : '=' ∉ k) :
    splitFirstEq (k ++ '=' :: v) = (k, some v) := by
  induction k with
  | nil => simp [splitFirstEq]
  | cons c k' ih =>
    have hc : c ≠ '=' := fun hh => h (hh ▸ List.mem_cons_self c k')
    have hk : '=' ∉ k' := fun hh => h (List.mem_cons_of_mem c hh)
    simp [splitFirstEq, hc, ih hk]

/-- One step of `percentDecode` on a non-escape character. -/
theorem percentDecode_cons (c : Char) (rest : List Char) (h : c ≠ '%') :
    percentDecode (c :: rest) = (percentDecode rest).map (c :: ·) := by
  rw [percentDecode.eq_def]
  dsimp only
  rw [if_neg h]

/-- One step of `percentDecode` on a well-formed ASCII escape. -/
theorem percentDecode_esc_ok (h l : Char) (hi lo : Nat) (rest tail : List Char)
    (hh : hexVal h = some hi) (hl : hexVal l = some lo) (hb : hi * 16 + lo < 128)
    (ht : percentDecode rest = some tail) :
    percentDecode ('%' :: h :: l :: rest) =
      some (Char.ofNat (hi * 16 + lo) :: tail) := by
  rw [percentDecode.eq_def]
  dsimp only
  rw [if_pos rfl, hh, hl]
  simp [hb, ht]

/-- `percentDecode` inverts `percentEncodeStr` on ASCII input. -/
theorem percentDecode_pe (s : List Char) (h : ∀ c ∈ s, c.toNat < 128) :
    percentDecode (percentEncodeStr s) = some s := by
  induction s with
  | nil => rfl
  | cons c rest ih =>
    have hc : c.toNat < 128 := h c (List.mem_cons_self c rest)
    have hrest := ih (fun x hx => h x (List.mem_cons_of_mem c hx))
    have hsplit : percentEncodeStr (c :: rest) =
        encodeChar c ++ percentEncodeStr rest := by
      simp [percentEncodeStr]
    by_cases hu : uriUnreserved c
    · have he : encodeChar c = [c] := by simp [encodeChar, hu]
      have hcp : c ≠ '%' := by
        rintro rfl; exact absurd hu (by decide)
      rw [hsplit, he, List.singleton_append, percentDecode_cons c _ hcp, hrest]
      rfl
    · have hb : utf8Bytes c = [c.toNat] := by
        unfold utf8Bytes
        rw [if_pos hc]
      have he : encodeChar c =
          ['%', hexDigit (c.toNat / 16), hexDigit (c.toNat % 16)] := by
        simp [encodeChar, hu, hb]
      have h16 : ∀ n, n < 16 → hexVal (hexDigit n) = some n := by decide
      have hdiv : c.toNat / 16 < 16 := by omega
      have hmod : c.toNat % 16 < 16 := by omega
      have hsum : c.toNat / 16 * 16 + c.toNat % 16 = c.toNat := by omega
      rw [hsplit, he, List.cons_append, List.cons_append, List.cons_append,
        List.nil_append,
        percentDecode_esc_ok _ _ _ _ _ rest (h16 _ hdiv) (h16 _ hmod)
          (by omega) hrest,
        hsum, Char.ofNat_toNat]

/-- `joinAmp` peeled one segment at a time. -/
theorem joinAmp_cons (s : List Char) (rest : List (List Char)) :
    joinAmp (s :: rest) = s ++ (if rest.isEmpty then [] else '&' :: joinAmp rest) := by
  cases rest <;> simp [joinAmp]

/-- `dropLead` keeps a string whose head is not `?`, `#` or `&`. -/
theorem dropLead_cons_of (c : Char) (l : List Char)
    (h : ¬(c = '?' ∨ c = '#' ∨ c = '&')) : dropLead (c :: l) = c :: l := by
  simp [dropLead, h]

/-- Stringified output never starts with a strippable character. -/
theorem dropLead_qsStringify (pairs : List (List Char × List Char)) :
    dropLead (qsStringify pairs) = qsStringify pairs := by
  cases pairs with
  | nil => rfl
  | cons p rest =>
    rw [qsStringify, List.map_cons, joinAmp_cons]
    cases hk : percentEncodeStr p.1 with
    | nil =>
      simp only [List.nil_append]
      exact dropLead_cons_of '=' _ (by decide)
    | cons c k' =>
      simp only [List.cons_append, List.append_assoc]
      exact dropLead_cons_of c _
        (pe_char_not_stripped p.1 c (hk ▸ List.mem_cons_self c k'))

/-- `qs.parse` inverts `qs.stringify`, up to per-component decoding. -/
theorem parseQuery_qsStringify (pairs : List (List Char × List Char)) :
    parseQuery (qsStringify pairs) =
      pairs.map (fun p => (decodeComp (percentEncodeStr p.1),
        some (decodeComp (percentEncodeStr p.2)))) := by
  unfold parseQuery
  rw [dropLead_qsStringify]
  cases pairs with
  | nil => rfl
  | cons p rest =>
    rw [qsStringify, splitOnAmp_joinAmp _ (by simp) ?hamp]
    case hamp =>
      intro s hs
      obtain ⟨q, _, rfl⟩ := List.mem_map.mp hs
      intro hmem
      rcases List.mem_append.mp hmem with h1 | h2
      · exact amp_not_mem_pe _ h1
      · rcases List.mem_cons.mp h2 with h3 | h4
        · exact absurd h3 (by decide)
        · exact amp_not_mem_pe _ h4
    rw [List.filter_eq_self.mpr ?hne]
    case hne =>
      intro seg hseg
      obtain ⟨q, _, rfl⟩ := List.mem_map.mp hseg
      cases hq : percentEncodeStr q.1 <;> simp [hq]
    rw [List.map_map]
    refine List.map_congr_left (fun q _ => ?_)
    dsimp only [Function.comp]
    rw [splitFirstEq_append _ _ (eqsign_not_mem_pe q.1)]
    rfl

/-- **C1.** For every editor text that is non-empty and not the default
placeholder, decoding the query string produced by the encoder (parsing the
query string and decompressing its program field, as `handleHash` does)
reproduces the original text exactly.  The lz-string pair is abstract,
subject to its lossless contract (`hrt`), nonempty output on the given text
(`hcne`, true of lz-string, whose output always carries an end marker) and
ASCII output (`hascii`, true of lz-string's URI-safe 65-character
alphabet). -/
theorem c1_encode_decode_roundtrip
    (compress : List Char → List Char)
    (decompress : List Char → Option (List Char))
    (snap : EditorSnapshot)
    (hrt : ∀ s, decompress (compress s) = some s)
    (hcne : compress snap.text ≠ [])
    (hascii : ∀ c ∈ compress snap.text, c.toNat < 128)
    (ht1 : snap.text ≠ []) (ht2 : snap.text ≠ defaultEditorValue) :
    handleHashProgram decompress (updateQueryString compress snap) =
      some snap.text := by
  have henc : updateQueryString compress snap = qsStringify
      [("exec".data, (Nat.repr snap.execTime).data),
       ("ext".data, snap.externalLibrary),
       ("prgrm".data, compress snap.text),
       ("variant".data, snap.variant)] := by
    unfold updateQueryString
    rw [if_neg (by rintro (h | h); exacts [ht1 h, ht2 h])]
  have hv3 : decodeComp (percentEncodeStr (compress snap.text)) =
      compress snap.text := by
    unfold decodeComp
    rw [percentDecode_pe _ hascii]
    rfl
  unfold handleHashProgram
  rw [henc, parseQuery_qsStringify]
  simp only [List.map_cons, List.map_nil]
  rw [hv3,
    (by decide : decodeComp (percentEncodeStr ['e', 'x', 'e', 'c']) =
      ['e', 'x', 'e', 'c']),
    (by decide : decodeComp (percentEncodeStr ['e', 'x', 't']) = ['e', 'x', 't']),
    (by decide : decodeComp (percentEncodeStr ['p', 'r', 'g', 'r', 'm']) =
      ['p', 'r', 'g', 'r', 'm']),
    (by decide : decodeComp (percentEncodeStr ['v', 'a', 'r', 'i', 'a', 'n', 't']) =
      ['v', 'a', 'r', 'i', 'a', 'n', 't'])]
  have hlz : ∀ v1 v2 v3 v4 : Option (List Char),
      List.lookup ['l', 'z']
        [(['e', 'x', 'e', 'c'], v1), (['e', 'x', 't'], v2),
         (['p', 'r', 'g', 'r', 'm'], v3),
         (['v', 'a', 'r', 'i', 'a', 'n', 't'], v4)] = none := by
    intro v1 v2 v3 v4
    simp only [List.lookup,
      (by decide : (['l', 'z'] == ['e', 'x', 'e', 'c']) = false),
      (by decide : (['l', 'z'] == ['e', 'x', 't']) = false),
      (by decide : (['l', 'z'] == ['p', 'r', 'g', 'r', 'm']) = false),
      (by decide : (['l', 'z'] == ['v', 'a', 'r', 'i', 'a', 'n', 't']) = false)]
  have hpr : ∀ v1 v2 v3 v4 : Option (List Char),
      List.lookup ['p', 'r', 'g', 'r', 'm']
        [(['e', 'x', 'e', 'c'], v1), (['e', 'x', 't'], v2),
         (['p', 'r', 'g', 'r', 'm'], v3),
         (['v', 'a', 'r', 'i', 'a', 'n', 't'], v4)] = some v3 := by
    intro v1 v2 v3 v4
    simp only [List.lookup,
      (by decide : (['p', 'r', 'g', 'r', 'm'] == ['e', 'x', 'e', 'c']) = false),
      (by decide : (['p', 'r', 'g', 'r', 'm'] == ['e', 'x', 't']) = false),
      (by decide : (['p', 'r', 'g', 'r', 'm'] == ['p', 'r', 'g', 'r', 'm']) = true)]
  rw [hlz, hpr]
  simp only [Option.some_bind, id_eq]
  rw [if_neg hcne, hrt snap.text]
  dsimp only
  rw [if_neg ht1]

/-- Witness for C1 at a concrete snapshot, with a concrete left-invertible
compressor pair. -/
theorem c1_encode_decode_roundtrip_witness :
    handleHashProgram (fun s => some s.tail)
      (updateQueryString (fun s => 'A' :: s)
        ⟨"2*3".data, "calc".data, "NONE".data, 1000⟩) = some "2*3".data :=
  c1_encode_decode_roundtrip (fun s => 'A' :: s) (fun s => some s.tail)
    ⟨"2*3".data, "calc".data, "NONE".data, 1000⟩
    (fun _ => rfl) (by decide) (by decide) (by decide) (by decide)

/-- **C7.** For every editor snapshot whose text is empty or equal to the
fixed default placeholder `'1+1'`, the query-string encoder publishes the
empty string. -/
theorem c7_default_text_empty_query (compress : List Char → List Char)
    (snap : EditorSnapshot)
    (h : snap.text = [] ∨ snap.text = defaultEditorValue) :
    updateQueryString compress snap = [] := by
  unfold updateQueryString
  rw [if_pos h]

/-- Witness for C7 at the default placeholder text. -/
theorem c7_default_text_empty_query_witness :
    updateQueryString (fun s => s)
      ⟨defaultEditorValue, "calc".data, "NONE".data, 1000⟩ = [] :=
  c7_default_text_empty_query (fun s => s)
    ⟨defaultEditorValue, "calc".data, "NONE".data, 1000⟩ (Or.inr rfl)

/-! ## The query-string watcher (`GENERATE_LZ_STRING`) -/

/-- The slice of playground state holding the published query string. -/
structure PlaygroundQueryState where
  queryString : Option (List Char)
deriving DecidableEq

/-- Modelled from the spec: the `changeQueryString` reducer (the playground
reducer is not among the excerpted sources) — the action "publishes it as
the new query-string value, unconditionally replacing any previous
value". -/
def applyChangeQueryString (_st : PlaygroundQueryState) (v : List Char) :
    PlaygroundQueryState :=
  { queryString := some v }

/-- One triggering of the `GENERATE_LZ_STRING` watcher: `updateQueryString`
reads the snapshot fields at trigger time, computes the new value and
dispatches `changeQueryString` with it. -/
def runUpdateQueryString (compress : List Char → List Char)
    (st : PlaygroundQueryState) (snap : EditorSnapshot) : PlaygroundQueryState :=
  applyChangeQueryString st (updateQueryString compress snap)

/-- **C9.** Every triggering of the query-string watcher recomputes the query
string from the snapshot read at trigger time and unconditionally replaces
the previous value: after two triggerings the value is the encoding of the
second (latest) snapshot, and the result of a triggering is independent of
the previous state. -/
theorem c9_watcher_last_write (compress : List Char → List Char)
    (st st' : PlaygroundQueryState) (s1 s2 : EditorSnapshot) :
    (runUpdateQueryString compress (runUpdateQueryString compress st s1) s2).queryString
        = some (updateQueryString compress s2) ∧
      runUpdateQueryString compress st s2 = runUpdateQueryString compress st' s2 :=
  ⟨rfl, rfl⟩

/-! ## `handleHash`'s execution-time clamping -/

/-- Modelled from the spec: `stringParamToInt`
(`commons/utils/ParamParseHelper`, not under `src/`) — parses the
execution-time budget parameter as a base-10 integer (`parseInt(param, 10)`,
accepting an optional sign and a leading digit run after whitespace),
returning `null` for a missing parameter or when no number can be parsed. -/
def parseIntTen (s : List Char) : Option Int :=
  let t := s.dropWhile (fun c => c = ' ' ∨ c = '\t' ∨ c = '\n' ∨ c = '\r')
  match t with
  | '-' :: rest =>
    let ds := rest.takeWhile Char.isDigit
    if ds.isEmpty then none
    else some (-(ds.foldl (fun n c => 10 * n + (c.toNat - 48)) 0 : Int))
  | '+' :: rest =>
    let ds := rest.takeWhile Char.isDigit
    if ds.isEmpty then none
    else some ((ds.foldl (fun n c => 10 * n + (c.toNat - 48)) 0 : Nat) : Int)
  | rest =>
    let ds := rest.takeWhile Char.isDigit
    if ds.isEmpty then none
    else some ((ds.foldl (fun n c => 10 * n + (c.toNat - 48)) 0 : Nat) : Int)

/-- Modelled from the spec: `stringParamToInt` applied to a possibly-missing
query parameter. -/
def stringParamToInt (p : Option (List Char)) : Option Int :=
  match p with
  | none => none
  | some s => parseIntTen s

/-- The execution-time computation of `handleHash` (part_000 lines 475–478):
`Math.max(stringParamToInt(qs.exec || '1000') || 1000, 1000)`.
`qs.exec || '1000'` replaces a missing, `null` or empty parameter by
`'1000'`; `|| 1000` replaces a `null` (or zero, which is falsy) parse result
by `1000`. -/
def handleHashExecTime (q : List (List Char × Option (List Char))) : Int :=
  let execParam : Option (List Char) :=
    match q.lookup "exec".data with
    | some (some v) => if v = [] then none else some v
    | _ => none
  let s : List Char := match execParam with
    | some v => v
    | none => "1000".data
  let n : Int := match stringParamToInt (some s) with
    | some v => if v = 0 then 1000 else v
    | none => 1000
  max n 1000

/-- The execution time `handleHash` passes to `handleChangeExecTime` for a
given hash. -/
def handleHashExec (hash : List Char) : Int :=
  handleHashExecTime (parseQuery hash)

/-- **C10.** For every hash decoded by `handleHash`, the execution-time value
passed to `handleChangeExecTime` is at least 1000; a missing or non-numeric
`exec` parameter defaults to 1000, and any parsed value below 1000 is
clamped up to 1000. -/
theorem c10_exec_time_min (hash : List Char) :
    1000 ≤ handleHashExec hash ∧
      ((parseQuery hash).lookup "exec".data = none → handleHashExec hash = 1000) ∧
      (∀ s, (parseQuery hash).lookup "exec".data = some (some s) →
        parseIntTen s = none → handleHashExec hash = 1000) ∧
      (∀ s n, (parseQuery hash).lookup "exec".data = some (some s) →
        parseIntTen s = some n → n < 1000 → handleHashExec hash = 1000) := by
  unfold handleHashExec
  generalize parseQuery hash = q
  refine ⟨le_max_right _ _, ?_, ?_, ?_⟩
  · intro hnone
    unfold handleHashExecTime
    rw [hnone]
    decide
  · intro s hs hparse
    unfold handleHashExecTime
    rw [hs]
    dsimp only
    by_cases hse : s = []
    · rw [if_pos hse]
      decide
    · rw [if_neg hse]
      dsimp only [stringParamToInt]
      rw [hparse]
      decide
  · intro s n hs hparse hlt
    unfold handleHashExecTime
    rw [hs]
    dsimp only
    by_cases hse : s = []
    · rw [hse] at hparse
      simp [parseIntTen] at hparse
    · rw [if_neg hse]
      dsimp only [stringParamToInt]
      rw [hparse]
      dsimp only
      by_cases hz : n = 0
      · rw [if_pos hz]
        decide
      · rw [if_neg hz]
        exact max_eq_right (by omega)

/-- Witness for C10: `#exec=5` is clamped up to 1000. -/
theorem c10_exec_time_min_witness : handleHashExec "exec=5".data = 1000 :=
  (c10_exec_time_min "exec=5".data).2.2.2 "5".data 5 (by decide) (by decide)
    (by decide)
